import Mathlib

/-!
Verification development for the 6x6x6 brick-presenter engine
(`presentation.py`, with `gui_presentation.py` as its caller).

The engine is embedded shallowly: coordinates are triples of integers,
the numpy occupancy array is a flat `List Nat` of length `size^3`
(0 = empty, positive = placement id), the placement registry dict is an
association list in insertion order, and the fallible operations return
the unchanged-or-updated state together with an optional Python-style
error (the source raises before it mutates, which the embedding mirrors
by performing all checks before constructing the new state).
-/

set_option autoImplicit false

/-- A coordinate, relative (brick-local) or absolute (grid): a triple of
signed integers, as in `presentation.py` (`Coord = Tuple[int,int,int]`). -/
abbrev Coord := Int × Int × Int

/-- `rot_x` from `rotate_point`: `(x, y, z) -> (x, -z, y)`. -/
def rot_x (a : Coord) : Coord := (a.1, -a.2.2, a.2.1)

/-- `rot_y` from `rotate_point`: `(x, y, z) -> (z, y, -x)`. -/
def rot_y (a : Coord) : Coord := (a.2.2, a.2.1, -a.1)

/-- `rot_z` from `rotate_point`: `(x, y, z) -> (-y, x, z)`. -/
def rot_z (a : Coord) : Coord := (-a.2.1, a.1, a.2.2)

/-- The `for _ in range(n): a = f(a)` loop from `rotate_point`. -/
def applyN (f : Coord → Coord) : Nat → Coord → Coord
  | 0, a => a
  | n + 1, a => applyN f n (f a)

/-- `rotate_point(p, rx, ry, rz)`: `rx % 4` X-steps, then `ry % 4` Y-steps,
then `rz % 4` Z-steps.  Python's `%` on integers agrees with `Int.emod`
for the positive modulus 4. -/
def rotate_point (p : Coord) (rx ry rz : Int) : Coord :=
  applyN rot_z (rz.emod 4).toNat (applyN rot_y (ry.emod 4).toNat (applyN rot_x (rx.emod 4).toNat p))

/-- `Brick`: an ordered list of cube coordinates plus a name.  The Python
constructor additionally raises unless there are exactly 4 cubes; the
4-cube condition is carried as an explicit hypothesis where needed. -/
structure Brick where
  cubes : List Coord
  name : String
  deriving DecidableEq, Repr

/-- `Brick.rotated(rx, ry, rz)`. -/
def Brick.rotated (b : Brick) (rx ry rz : Int) : Brick :=
  ⟨b.cubes.map fun c => rotate_point c rx ry rz, b.name⟩

/-- `Brick.normalized()`: shift so the minimum coordinate on each axis is 0.
The source computes `min` of each axis over the cube list (a Python error
on an empty list; every brick the program builds has 4 cubes, and the
`headD 0` seed is the first list element whenever the list is nonempty). -/
def Brick.normalized (b : Brick) : Brick :=
  let xs := b.cubes.map fun c => c.1
  let ys := b.cubes.map fun c => c.2.1
  let zs := b.cubes.map fun c => c.2.2
  let minx := xs.foldl min (xs.headD 0)
  let miny := ys.foldl min (ys.headD 0)
  let minz := zs.foldl min (zs.headD 0)
  ⟨b.cubes.map fun c => (c.1 - minx, c.2.1 - miny, c.2.2 - minz), b.name⟩

/-- The `'T'` template brick of `CubeGrid.__init__` / `sample_bricks`. -/
def tTemplate : Brick := ⟨[(0, 0, 0), (1, 0, 0), (2, 0, 0), (1, 1, 0)], "T"⟩

/-- The `'I'` template brick. -/
def iTemplate : Brick := ⟨[(0, 0, 0), (1, 0, 0), (2, 0, 0), (3, 0, 0)], "I"⟩

/-- The `'L'` template brick. -/
def lTemplate : Brick := ⟨[(0, 0, 0), (1, 0, 0), (2, 0, 0), (2, 1, 0)], "L"⟩

/-- The `'O'` template brick. -/
def oTemplate : Brick := ⟨[(0, 0, 0), (1, 0, 0), (0, 1, 0), (1, 1, 0)], "O"⟩

/-- The `'S3D'` template brick. -/
def s3dTemplate : Brick := ⟨[(0, 0, 0), (1, 0, 0), (1, 1, 0), (1, 1, 1)], "S3D"⟩

/-- The `self.bricks` template dictionary, in insertion order. -/
def templates : List (String × Brick) :=
  [("T", tTemplate), ("I", iTemplate), ("L", lTemplate), ("O", oTemplate), ("S3D", s3dTemplate)]

section Dict

variable {κ α : Type} [DecidableEq κ]

/-- Python dict lookup `d[k]` / `k in d`, on an insertion-ordered association list. -/
def dictGet? : List (κ × α) → κ → Option α
  | [], _ => none
  | e :: es, k => if e.1 = k then some e.2 else dictGet? es k

/-- Python `d.get(k, v)`. -/
def dictGetD (l : List (κ × α)) (k : κ) (v : α) : α :=
  (dictGet? l k).getD v

/-- Python dict assignment `d[k] = v`: replaces in place, or appends a new key. -/
def dictSet : List (κ × α) → κ → α → List (κ × α)
  | [], k, v => [(k, v)]
  | e :: es, k, v => if e.1 = k then (k, v) :: es else e :: dictSet es k v

/-- Python `d.pop(k)` (the removal part; lookup is `dictGet?`). -/
def dictErase : List (κ × α) → κ → List (κ × α)
  | [], _ => []
  | e :: es, k => if e.1 = k then es else e :: dictErase es k

end Dict

/-- Bounds test `0 <= x < size and 0 <= y < size and 0 <= z < size`. -/
def inBounds (size : Nat) (c : Coord) : Bool :=
  decide (0 ≤ c.1 ∧ c.1 < (size : Int) ∧ 0 ≤ c.2.1 ∧ c.2.1 < (size : Int) ∧
    0 ≤ c.2.2 ∧ c.2.2 < (size : Int))

/-- Flat index of an in-bounds coordinate in the row-major `size^3` array. -/
def flatIdx (size : Nat) (c : Coord) : Nat :=
  c.1.toNat * size * size + c.2.1.toNat * size + c.2.2.toNat

/-- Read `self.grid[x, y, z]`.  Every grid read in the source is made on an
in-bounds coordinate (the bounds test precedes the access, or the registry
invariant supplies it); the out-of-bounds default 0 is never exercised. -/
def gridGet (size : Nat) (g : List Nat) (c : Coord) : Nat :=
  if inBounds size c then g.getD (flatIdx size c) 0 else 0

/-- Write `self.grid[x, y, z] = v`, likewise only exercised in bounds. -/
def gridSet (size : Nat) (g : List Nat) (c : Coord) (v : Nat) : List Nat :=
  if inBounds size c then g.set (flatIdx size c) v else g

/-- The `for cx, cy, cz in brick.cubes: self.grid[...] = v` loops. -/
def writeCells (size : Nat) (g : List Nat) (cells : List Coord) (v : Nat) : List Nat :=
  cells.foldl (fun acc c => gridSet size acc c v) g

/-- The absolute cells `pos + offset` covered by a brick at a position. -/
def cellsOf (b : Brick) (pos : Coord) : List Coord :=
  b.cubes.map fun c => (pos.1 + c.1, pos.2.1 + c.2.1, pos.2.2 + c.2.2)

/-- A registry value: the `(pid, brick, pos)` tuple stored in `self.placed`. -/
structure Placement where
  pid : Nat
  brick : Brick
  pos : Coord
  deriving DecidableEq, Repr

/-- `can_place` as a function of the size and occupancy it reads
(used both by the live method and during `__init__`, whose grid is all
zeros): every absolute cell in bounds and empty. -/
def canPlaceOn (size : Nat) (grid : List Nat) (b : Brick) (pos : Coord) : Bool :=
  (cellsOf b pos).all fun c => inBounds size c && decide (gridGet size grid c = 0)

/-- The 64 normalized orientations enumerated by `__init__`
(`for rx in range(4): for ry ...: for rz ...`).  The Python `set` they are
added to hashes `Brick` objects by identity, so all 64 freshly constructed
elements stay distinct; the embedding keeps them as a list in loop order
(every consumer is order-insensitive: `any`, `filter`). -/
def allRotationsOf (b : Brick) : List Brick :=
  (List.range 4).flatMap fun rx => (List.range 4).flatMap fun ry => (List.range 4).map fun rz =>
    (b.rotated rx ry rz).normalized

/-- All grid coordinates in the `for x ... for y ... for z ...` loop order. -/
def allCoords (size : Nat) : List Coord :=
  (List.range size).flatMap fun x => (List.range size).flatMap fun y =>
    (List.range size).map fun z => ((x : Int), (y : Int), (z : Int))

/-- The `valid_placements` construction of `__init__`: origins where some
cached orientation fits on the still-empty grid. -/
def originsFor (size : Nat) (rots : List Brick) : List Coord :=
  (allCoords size).filter fun p =>
    rots.any fun b => canPlaceOn size (List.replicate (size * size * size) 0) b p

/-- Python `KeyError` / `ValueError`. -/
inductive PyError where
  | keyError (msg : String)
  | valueError (msg : String)
  deriving DecidableEq, Repr

/-- The engine state: `CubeGrid.__init__`'s fields. -/
structure CubeGrid where
  size : Nat
  grid : List Nat
  next_id : Nat
  placed : List (Nat × Placement)
  bricks : List (String × Brick)
  valid_placements : List (String × List Coord)
  valid_rotations : List (String × List Brick)
  deriving DecidableEq, Repr

/-- `CubeGrid(size)`: zeroed grid, `next_id = 1`, empty registry, the five
templates, and the per-template caches built against the empty grid. -/
def CubeGrid.init (size : Nat) : CubeGrid :=
  { size := size
    grid := List.replicate (size * size * size) 0
    next_id := 1
    placed := []
    bricks := templates
    valid_placements := templates.map fun t => (t.1, originsFor size (allRotationsOf t.2))
    valid_rotations := templates.map fun t => (t.1, allRotationsOf t.2) }

/-- `can_place(brick, pos)`. -/
def CubeGrid.can_place (g : CubeGrid) (b : Brick) (pos : Coord) : Bool :=
  canPlaceOn g.size g.grid b pos

/-- `place(brick, pos)`: raises `ValueError` if `can_place` fails (before any
mutation), else writes `next_id` into the cells, registers the entry,
increments `next_id` and returns the id. -/
def CubeGrid.place (g : CubeGrid) (b : Brick) (pos : Coord) : CubeGrid × Except PyError Nat :=
  if g.can_place b pos then
    let pid := g.next_id
    ({ g with grid := writeCells g.size g.grid (cellsOf b pos) pid
              placed := dictSet g.placed pid ⟨pid, b, pos⟩
              next_id := pid + 1 }, .ok pid)
  else (g, .error (.valueError "Brick does not fit at position or overlaps"))

/-- `remove(placement_id)`: raises `KeyError` for an unknown id (before any
mutation), else pops the entry and zeroes its cells. -/
def CubeGrid.remove (g : CubeGrid) (pid : Nat) : CubeGrid × Option PyError :=
  match dictGet? g.placed pid with
  | none => (g, some (.keyError "placement id not found"))
  | some p =>
    ({ g with placed := dictErase g.placed pid
              grid := writeCells g.size g.grid (cellsOf p.brick p.pos) 0 }, none)

/-- `can_move(placement_id, new_pos)`: false for an unknown id; else every
target cell in bounds and empty-or-owned-by-this-placement. -/
def CubeGrid.can_move (g : CubeGrid) (pid : Nat) (newPos : Coord) : Bool :=
  match dictGet? g.placed pid with
  | none => false
  | some p =>
    (cellsOf p.brick newPos).all fun c =>
      inBounds g.size c &&
        (decide (gridGet g.size g.grid c = 0) || decide (gridGet g.size g.grid c = pid))

/-- `move(placement_id, new_pos)`: `KeyError` for an unknown id, `ValueError`
when `can_move` fails — both raised before any mutation — else clears the
old cells, writes the entry's pid into the new cells and updates the
registry entry's position. -/
def CubeGrid.move (g : CubeGrid) (pid : Nat) (newPos : Coord) : CubeGrid × Option PyError :=
  match dictGet? g.placed pid with
  | none => (g, some (.keyError "placement id not found"))
  | some p =>
    if g.can_move pid newPos then
      ({ g with grid := writeCells g.size
                  (writeCells g.size g.grid (cellsOf p.brick p.pos) 0)
                  (cellsOf p.brick newPos) p.pid
                placed := dictSet g.placed pid ⟨p.pid, p.brick, newPos⟩ }, none)
    else (g, some (.valueError "cannot move to the requested position (out of bounds or overlap)"))

/-- `clear()`: `grid.fill(0)`, `next_id = 1`, `placed.clear()`. -/
def CubeGrid.clear (g : CubeGrid) : CubeGrid :=
  { g with grid := g.grid.map fun _ => 0, next_id := 1, placed := [] }

/-- `num_left()`: count of empty cells, by the triple scan loop. -/
def CubeGrid.num_left (g : CubeGrid) : Nat :=
  ((allCoords g.size).filter fun c => decide (gridGet g.size g.grid c = 0)).length

/-- `validate_placements(brick)`: cached origins currently empty, quick
reject when none, else every (orientation, origin) pair passing a live
`can_place`.  Missing cache keys behave as empty sets (`dict.get` default). -/
def CubeGrid.validate_placements (g : CubeGrid) (b : Brick) : List (Brick × Coord) :=
  let empties := (dictGetD g.valid_placements b.name []).filter fun p =>
    decide (gridGet g.size g.grid p = 0)
  if empties.isEmpty then []
  else
    let rotations := dictGetD g.valid_rotations b.name []
    empties.flatMap fun e => (rotations.filter fun rb => g.can_place rb e).map fun rb => (rb, e)

/-- `can_not_place_somewhere(brick)`: quick-rejects to `false` when no cached
origin is currently empty; else `true` iff some currently-empty cached
origin admits no cached orientation under a live `can_place`. -/
def CubeGrid.can_not_place_somewhere (g : CubeGrid) (b : Brick) : Bool :=
  let empties := (dictGetD g.valid_placements b.name []).filter fun p =>
    decide (gridGet g.size g.grid p = 0)
  if empties.isEmpty then false
  else
    let rotations := dictGetD g.valid_rotations b.name []
    empties.any fun e => ! rotations.any fun rb => g.can_place rb e

/-- One record of the persisted `placed` list. -/
structure PlacedRecord where
  pid : Nat
  name : String
  cubes : List Coord
  pos : Coord
  deriving DecidableEq, Repr

/-- The persisted snapshot (`to_dict` output / `load_from_file` input);
`size` and `next_id` are optional because load reads them with
`data.get(..., default)`. -/
structure SaveData where
  size : Option Nat
  next_id : Option Nat
  placed : List PlacedRecord
  deriving DecidableEq, Repr

/-- `to_dict()`: size, `next_id`, and the registry in insertion order
(the record's `pid` field is the dict key). -/
def CubeGrid.to_dict (g : CubeGrid) : SaveData :=
  { size := some g.size
    next_id := some g.next_id
    placed := g.placed.map fun e => ⟨e.1, e.2.brick.name, e.2.brick.cubes, e.2.pos⟩ }

/-- The record loop of `load_from_file`: builds grid cells and registry and
tracks `max_pid`; the `Brick` constructor's 4-cube check is the raise
point, reached before that record mutates anything, so a failure keeps the
partially rebuilt state of the records before it. -/
def loadRecords (size : Nat) :
    List Nat → List (Nat × Placement) → Nat → List PlacedRecord →
    List Nat × List (Nat × Placement) × Nat × Option PyError
  | grid, placed, maxPid, [] => (grid, placed, maxPid, none)
  | grid, placed, maxPid, r :: rs =>
    if r.cubes.length = 4 then
      let b : Brick := ⟨r.cubes, r.name⟩
      loadRecords size (writeCells size grid (cellsOf b r.pos) r.pid)
        (dictSet placed r.pid ⟨r.pid, b, r.pos⟩) (max maxPid r.pid) rs
    else (grid, placed, maxPid, some (.valueError "Each brick must consist of exactly 4 cubes"))

/-- `load_from_file` (on the parsed snapshot): replaces `size`, `grid`,
`placed` and — only after the loop succeeds — `next_id` (from the snapshot,
falling back to `max_pid + 1`).  All other fields, in particular the
caches `valid_placements` / `valid_rotations` and the templates, are not
assigned by the source and stay as they were. -/
def CubeGrid.load_from_data (g : CubeGrid) (d : SaveData) : CubeGrid × Option PyError :=
  let size := d.size.getD 6
  match loadRecords size (List.replicate (size * size * size) 0) [] 0 d.placed with
  | (grid, placed, maxPid, none) =>
    ({ g with size := size, grid := grid, placed := placed,
              next_id := d.next_id.getD (maxPid + 1) }, none)
  | (grid, placed, _, some e) =>
    ({ g with size := size, grid := grid, placed := placed }, some e)

/-! ## Canonical cube keys (semantic brick equality) -/

/-- Lexicographic order on coordinates, for the canonical sorted cube tuple. -/
def coordLe (a b : Coord) : Bool :=
  decide (a.1 < b.1 ∨ (a.1 = b.1 ∧ (a.2.1 < b.2.1 ∨ (a.2.1 = b.2.1 ∧ a.2.2 ≤ b.2.2))))

/-- Insertion step of the canonical sort. -/
def insertCoord (c : Coord) : List Coord → List Coord
  | [] => [c]
  | x :: xs => if coordLe c x then c :: x :: xs else x :: insertCoord c xs

/-- Insertion sort of a cube list by `coordLe`. -/
def sortCoords : List Coord → List Coord
  | [] => []
  | c :: cs => insertCoord c (sortCoords cs)

/-- The canonical sorted cube tuple of a brick: two bricks are semantically
equal (equal cube sets as unordered collections) iff their canonical
tuples are equal. -/
def canonCubes (b : Brick) : List Coord := sortCoords b.cubes

/-! ## C8: the rotation transform -/

/-- The spec's X-step `(x,y,z) → (x, −z, y)`. -/
def specXStep (a : Coord) : Coord := (a.1, -a.2.2, a.2.1)

/-- The spec's Y-step `(x,y,z) → (z, y, −x)`. -/
def specYStep (a : Coord) : Coord := (a.2.2, a.2.1, -a.1)

/-- The spec's Z-step `(x,y,z) → (−y, x, z)`. -/
def specZStep (a : Coord) : Coord := (-a.2.1, a.1, a.2.2)

lemma applyN_eq_iterate (f : Coord → Coord) (n : Nat) (a : Coord) : applyN f n a = f^[n] a := by
  induction n generalizing a with
  | zero => rfl
  | succ n ih => rw [applyN, ih, Function.iterate_succ_apply]

lemma specXStep_eq_rot_x : specXStep = rot_x := rfl
lemma specYStep_eq_rot_y : specYStep = rot_y := rfl
lemma specZStep_eq_rot_z : specZStep = rot_z := rfl

/-- C8: for every integer point and all integers `rx, ry, rz` (including
negatives), `rotate_point` is exactly `rx mod 4` X-steps, then `ry mod 4`
Y-steps, then `rz mod 4` Z-steps, in that fixed order, over the integers. -/
theorem rotate_point_eq_iterated_steps (p : Coord) (rx ry rz : Int) :
    rotate_point p rx ry rz =
      specZStep^[(rz.emod 4).toNat] (specYStep^[(ry.emod 4).toNat] (specXStep^[(rx.emod 4).toNat] p)) := by
  rw [rotate_point, applyN_eq_iterate, applyN_eq_iterate, applyN_eq_iterate,
    specXStep_eq_rot_x, specYStep_eq_rot_y, specZStep_eq_rot_z]

/-! ## C2: the rotation cache is not deduplicated by cube-set equality -/

/-- C2 (code bug): the `valid_rotations` cache entry for the `'O'` template
holds all 64 raw rotation results as distinct elements — the Python `set`
hashes `Brick` by object identity because `Brick` defines no `__eq__` or
`__hash__` — even though the rotation triples `(0,0,0)` and `(0,0,1)`
normalize to the same canonical cube set, and only 3 of the 64 elements
are distinct under cube-set equality.  The claim's deduplicated cache
would keep one element per canonical shape. -/
theorem valid_rotations_O_not_deduplicated :
    canonCubes ((oTemplate.rotated 0 0 0).normalized) =
      canonCubes ((oTemplate.rotated 0 0 1).normalized)
    ∧ (dictGetD (CubeGrid.init 6).valid_rotations "O" []).length = 64
    ∧ ((dictGetD (CubeGrid.init 6).valid_rotations "O" []).map canonCubes).dedup.length = 3 :=
  ⟨by decide, by decide, by decide⟩

/-! ## C10: queries on a brick name absent from the caches -/

lemma dictGet?_eq_none_of_not_mem_keys {κ α : Type} [DecidableEq κ] (l : List (κ × α)) (k : κ)
    (h : k ∉ l.map Prod.fst) : dictGet? l k = none := by
  induction l with
  | nil => rfl
  | cons e es ih =>
    simp only [List.map_cons, List.mem_cons, not_or] at h
    rw [dictGet?, if_neg (fun he => h.1 he.symm), ih h.2]

/-- C10: for any grid state whose placement cache has the five template
keys, querying a brick whose name is none of them makes
`validate_placements` return the empty list and `can_not_place_somewhere`
return `false` (the missing cache entry reads as an empty set via the
`dict.get` default; nothing is raised). -/
theorem unknown_brick_name_queries (g : CubeGrid) (b : Brick)
    (hkeys : g.valid_placements.map Prod.fst = templates.map Prod.fst)
    (hname : b.name ∉ templates.map Prod.fst) :
    g.validate_placements b = [] ∧ g.can_not_place_somewhere b = false := by
  have h0 : dictGet? g.valid_placements b.name = none :=
    dictGet?_eq_none_of_not_mem_keys _ _ (by rw [hkeys]; exact hname)
  constructor <;>
    simp [CubeGrid.validate_placements, CubeGrid.can_not_place_somewhere, dictGetD, h0]

/-- C10 witness: a size-2 grid and a 4-cube brick named `"X"`. -/
theorem unknown_brick_name_queries_witness :
    ((CubeGrid.init 2).valid_placements.map Prod.fst = templates.map Prod.fst
      ∧ (Brick.mk [(0, 0, 0), (1, 0, 0), (2, 0, 0), (1, 1, 0)] "X").name ∉ templates.map Prod.fst)
    ∧ ((CubeGrid.init 2).validate_placements ⟨[(0, 0, 0), (1, 0, 0), (2, 0, 0), (1, 1, 0)], "X"⟩ = []
      ∧ (CubeGrid.init 2).can_not_place_somewhere ⟨[(0, 0, 0), (1, 0, 0), (2, 0, 0), (1, 1, 0)], "X"⟩ = false) :=
  ⟨⟨by decide, by decide⟩, unknown_brick_name_queries _ _ (by decide) (by decide)⟩

/-! ## Flat-index and occupancy-array lemmas -/

lemma digits_inj {s a b d a' b' d' : Nat} (hb : b < s) (hd : d < s) (hb' : b' < s) (hd' : d' < s)
    (h : a * s * s + b * s + d = a' * s * s + b' * s + d') : a = a' ∧ b = b' ∧ d = d' := by
  have hs : 0 < s := lt_of_le_of_lt (Nat.zero_le b) hb
  have e1 : d + (a * s + b) * s = d' + (a' * s + b') * s := by
    have ha : a * s * s + b * s + d = d + (a * s + b) * s := by ring
    have ha' : a' * s * s + b' * s + d' = d' + (a' * s + b') * s := by ring
    rw [ha, ha'] at h; exact h
  have hdd : d = d' := by
    have := congrArg (· % s) e1
    simpa [Nat.add_mul_mod_self_right, Nat.mod_eq_of_lt hd, Nat.mod_eq_of_lt hd'] using this
  have e2 : a * s + b = a' * s + b' := by
    have := congrArg (· / s) e1
    simpa [Nat.add_mul_div_right _ _ hs, Nat.div_eq_of_lt hd, Nat.div_eq_of_lt hd'] using this
  have e3 : b + a * s = b' + a' * s := by
    have hb2 : a * s + b = b + a * s := by ring
    have hb2' : a' * s + b' = b' + a' * s := by ring
    rw [hb2, hb2'] at e2; exact e2
  have hbb : b = b' := by
    have := congrArg (· % s) e3
    simpa [Nat.add_mul_mod_self_right, Nat.mod_eq_of_lt hb, Nat.mod_eq_of_lt hb'] using this
  have haa : a = a' := by
    have := congrArg (· / s) e3
    simpa [Nat.add_mul_div_right _ _ hs, Nat.div_eq_of_lt hb, Nat.div_eq_of_lt hb'] using this
  exact ⟨haa, hbb, hdd⟩

lemma inBounds_toNat_lt {size : Nat} {c : Coord} (h : inBounds size c = true) :
    c.1.toNat < size ∧ c.2.1.toNat < size ∧ c.2.2.toNat < size := by
  simp only [inBounds, decide_eq_true_eq] at h
  omega

lemma inBounds_nonneg {size : Nat} {c : Coord} (h : inBounds size c = true) :
    0 ≤ c.1 ∧ 0 ≤ c.2.1 ∧ 0 ≤ c.2.2 := by
  simp only [inBounds, decide_eq_true_eq] at h
  exact ⟨h.1, h.2.2.1, h.2.2.2.2.1⟩

lemma flatIdx_lt {size : Nat} {c : Coord} (h : inBounds size c = true) :
    flatIdx size c < size * size * size := by
  obtain ⟨ha, hb, hd⟩ := inBounds_toNat_lt h
  unfold flatIdx
  nlinarith

lemma flatIdx_inj {size : Nat} {c c' : Coord} (h : inBounds size c = true)
    (h' : inBounds size c' = true) (he : flatIdx size c = flatIdx size c') : c = c' := by
  obtain ⟨ha, hb, hd⟩ := inBounds_toNat_lt h
  obtain ⟨ha', hb', hd'⟩ := inBounds_toNat_lt h'
  obtain ⟨hn1, hn2, hn3⟩ := inBounds_nonneg h
  obtain ⟨hm1, hm2, hm3⟩ := inBounds_nonneg h'
  obtain ⟨e1, e2, e3⟩ := digits_inj hb hd hb' hd' he
  have g1 : c.1 = c'.1 := by
    rw [← Int.toNat_of_nonneg hn1, ← Int.toNat_of_nonneg hm1, e1]
  have g2 : c.2.1 = c'.2.1 := by
    rw [← Int.toNat_of_nonneg hn2, ← Int.toNat_of_nonneg hm2, e2]
  have g3 : c.2.2 = c'.2.2 := by
    rw [← Int.toNat_of_nonneg hn3, ← Int.toNat_of_nonneg hm3, e3]
  obtain ⟨x, y, z⟩ := c
  obtain ⟨x', y', z'⟩ := c'
  simp only at g1 g2 g3
  simp [g1, g2, g3]

lemma length_gridSet (size : Nat) (g : List Nat) (c : Coord) (v : Nat) :
    (gridSet size g c v).length = g.length := by
  unfold gridSet
  split <;> simp

lemma length_writeCells (size : Nat) (cells : List Coord) (g : List Nat) (v : Nat) :
    (writeCells size g cells v).length = g.length := by
  induction cells generalizing g with
  | nil => rfl
  | cons c cs ih =>
    have hstep : writeCells size g (c :: cs) v = writeCells size (gridSet size g c v) cs v := rfl
    rw [hstep, ih, length_gridSet]

lemma getElem?_map_const (g : List Nat) (i v : Nat) :
    (g[i]?.map fun _ => v) = if i < g.length then some v else none := by
  rcases Nat.lt_or_ge i g.length with h | h
  · simp [List.getElem?_eq_getElem h, h]
  · simp [List.getElem?_eq_none h, Nat.not_lt_of_ge h]

lemma getElem?_gridSet (size : Nat) (g : List Nat) (c : Coord) (v i : Nat) :
    (gridSet size g c v)[i]? =
      if inBounds size c && decide (flatIdx size c = i) then g[i]?.map fun _ => v
      else g[i]? := by
  unfold gridSet
  by_cases hb : inBounds size c = true
  · by_cases hi : flatIdx size c = i
    · simp [hb, hi, List.getElem?_set, getElem?_map_const]
    · simp [hb, hi, List.getElem?_set]
  · simp [hb]

lemma getElem?_writeCells (size : Nat) (cells : List Coord) (g : List Nat) (v i : Nat) :
    (writeCells size g cells v)[i]? =
      if cells.any fun c => inBounds size c && decide (flatIdx size c = i) then
        g[i]?.map fun _ => v
      else g[i]? := by
  induction cells generalizing g with
  | nil => simp [writeCells]
  | cons c cs ih =>
    have hstep : writeCells size g (c :: cs) v = writeCells size (gridSet size g c v) cs v := rfl
    rw [hstep, ih, List.any_cons]
    by_cases hc : (inBounds size c && decide (flatIdx size c = i)) = true
    · by_cases hcs : (cs.any fun c => inBounds size c && decide (flatIdx size c = i)) = true
      · simp [hc, hcs, getElem?_gridSet, length_gridSet, getElem?_map_const]
      · simp [hc, hcs, getElem?_gridSet, length_gridSet, getElem?_map_const]
    · by_cases hcs : (cs.any fun c => inBounds size c && decide (flatIdx size c = i)) = true
      · simp [hc, hcs, getElem?_gridSet, length_gridSet, getElem?_map_const]
      · simp [hc, hcs, getElem?_gridSet]

lemma gridGet_eq_zero_of_not_inBounds {size : Nat} {g : List Nat} {c : Coord}
    (h : ¬ inBounds size c = true) : gridGet size g c = 0 := by
  unfold gridGet
  simp [h]

lemma gridGet_writeCells (size : Nat) (cells : List Coord) (g : List Nat) (v : Nat) (c : Coord)
    (hlen : g.length = size * size * size) :
    gridGet size (writeCells size g cells v) c =
      if c ∈ cells ∧ inBounds size c = true then v else gridGet size g c := by
  by_cases hb : inBounds size c = true
  · have hidx : flatIdx size c < g.length := hlen ▸ flatIdx_lt hb
    unfold gridGet
    rw [if_pos hb, if_pos hb, List.getD_eq_getElem?_getD, List.getD_eq_getElem?_getD,
      getElem?_writeCells]
    by_cases hmem : c ∈ cells
    · have hany : (cells.any fun c' => inBounds size c' && decide (flatIdx size c' = flatIdx size c)) = true := by
        rw [List.any_eq_true]
        exact ⟨c, hmem, by simp [hb]⟩
      rw [if_pos hany, if_pos ⟨hmem, hb⟩, getElem?_map_const, if_pos hidx]
      rfl
    · have hany : ¬ (cells.any fun c' => inBounds size c' && decide (flatIdx size c' = flatIdx size c)) = true := by
        rw [List.any_eq_true]
        rintro ⟨c', hc', hcond⟩
        simp only [Bool.and_eq_true, decide_eq_true_eq] at hcond
        exact hmem ((flatIdx_inj hcond.1 hb hcond.2) ▸ hc')
      rw [if_neg hany, if_neg (fun hh => hmem hh.1)]
  · rw [gridGet_eq_zero_of_not_inBounds hb, gridGet_eq_zero_of_not_inBounds hb,
      if_neg (fun hh => hb hh.2)]

lemma gridGet_replicate (size n : Nat) (c : Coord) :
    gridGet size (List.replicate n 0) c = 0 := by
  unfold gridGet
  split
  · rw [List.getD_eq_getElem?_getD, List.getElem?_replicate]
    split <;> rfl
  · rfl

lemma gridGet_map_zero (size : Nat) (g : List Nat) (c : Coord) :
    gridGet size (g.map fun _ => 0) c = 0 := by
  unfold gridGet
  split
  · rw [List.getD_eq_getElem?_getD, List.getElem?_map]
    cases g[flatIdx size c]? <;> rfl
  · rfl

/-! ## Registry (association-list) lemmas -/

section DictLemmas

variable {κ α : Type} [DecidableEq κ]

lemma dictGet?_dictSet_self (l : List (κ × α)) (k : κ) (v : α) :
    dictGet? (dictSet l k v) k = some v := by
  induction l with
  | nil => simp [dictSet, dictGet?]
  | cons e es ih =>
    by_cases h : e.1 = k
    · simp [dictSet, h, dictGet?]
    · simp [dictSet, h, dictGet?, ih]

lemma dictGet?_dictSet_ne (l : List (κ × α)) (k k' : κ) (v : α) (h : k' ≠ k) :
    dictGet? (dictSet l k v) k' = dictGet? l k' := by
  induction l with
  | nil =>
    simp only [dictSet, dictGet?]
    rw [if_neg (fun hh : k = k' => h hh.symm)]
  | cons e es ih =>
    by_cases he : e.1 = k
    · rw [dictSet, if_pos he, dictGet?, if_neg (fun hh : k = k' => h hh.symm), dictGet?,
        if_neg (he ▸ fun hh : e.1 = k' => h (he ▸ hh).symm)]
    · rw [dictSet, if_neg he, dictGet?, dictGet?]
      split
      · rfl
      · exact ih

lemma dictSet_of_not_mem_keys (l : List (κ × α)) (k : κ) (v : α)
    (h : k ∉ l.map Prod.fst) : dictSet l k v = l ++ [(k, v)] := by
  induction l with
  | nil => rfl
  | cons e es ih =>
    simp only [List.map_cons, List.mem_cons, not_or] at h
    rw [dictSet, if_neg (fun he => h.1 he.symm), ih h.2, List.cons_append]

lemma keys_dictSet_of_mem (l : List (κ × α)) (k : κ) (v : α)
    (h : k ∈ l.map Prod.fst) : (dictSet l k v).map Prod.fst = l.map Prod.fst := by
  induction l with
  | nil => simp at h
  | cons e es ih =>
    by_cases he : e.1 = k
    · rw [dictSet, if_pos he]
      simp [he]
    · simp only [List.map_cons, List.mem_cons] at h
      rcases h with h | h
      · exact absurd h.symm he
      · rw [dictSet, if_neg he, List.map_cons, List.map_cons, ih h]

lemma mem_dictSet_iff (l : List (κ × α)) (k : κ) (v : α)
    (hnd : (l.map Prod.fst).Nodup) (e : κ × α) :
    e ∈ dictSet l k v ↔ e = (k, v) ∨ (e ∈ l ∧ e.1 ≠ k) := by
  induction l with
  | nil => simp [dictSet]
  | cons a as ih =>
    rw [List.map_cons, List.nodup_cons] at hnd
    by_cases ha : a.1 = k
    · rw [dictSet, if_pos ha, List.mem_cons, List.mem_cons]
      constructor
      · rintro (h | h)
        · exact Or.inl h
        · refine Or.inr ⟨Or.inr h, fun hk => ?_⟩
          exact hnd.1 (ha ▸ hk ▸ List.mem_map_of_mem Prod.fst h)
      · rintro (h | ⟨h | h, hk⟩)
        · exact Or.inl h
        · exact absurd (h ▸ ha) hk
        · exact Or.inr h
    · rw [dictSet, if_neg ha, List.mem_cons, ih hnd.2, List.mem_cons]
      constructor
      · rintro (h | h | h)
        · exact Or.inr ⟨Or.inl h, h ▸ ha⟩
        · exact Or.inl h
        · exact Or.inr ⟨Or.inr h.1, h.2⟩
      · rintro (h | ⟨h | h, hk⟩)
        · exact Or.inr (Or.inl h)
        · exact Or.inl h
        · exact Or.inr (Or.inr ⟨h, hk⟩)

lemma keys_dictSet_nodup (l : List (κ × α)) (k : κ) (v : α)
    (hnd : (l.map Prod.fst).Nodup) : ((dictSet l k v).map Prod.fst).Nodup := by
  by_cases h : k ∈ l.map Prod.fst
  · rw [keys_dictSet_of_mem l k v h]
    exact hnd
  · rw [dictSet_of_not_mem_keys l k v h]
    simp only [List.map_append, List.map_cons, List.map_nil]
    refine List.Nodup.append hnd (List.nodup_singleton k) ?_
    intro x hx hk
    rw [List.mem_singleton] at hk
    exact h (hk ▸ hx)

lemma mem_dictErase_iff (l : List (κ × α)) (k : κ)
    (hnd : (l.map Prod.fst).Nodup) (e : κ × α) :
    e ∈ dictErase l k ↔ e ∈ l ∧ e.1 ≠ k := by
  induction l with
  | nil => simp [dictErase]
  | cons a as ih =>
    rw [List.map_cons, List.nodup_cons] at hnd
    by_cases ha : a.1 = k
    · rw [dictErase, if_pos ha, List.mem_cons]
      constructor
      · intro h
        refine ⟨Or.inr h, fun hk => ?_⟩
        exact hnd.1 (ha ▸ hk ▸ List.mem_map_of_mem Prod.fst h)
      · rintro ⟨h | h, hk⟩
        · exact absurd (h ▸ ha) hk
        · exact h
    · rw [dictErase, if_neg ha, List.mem_cons, List.mem_cons, ih hnd.2]
      constructor
      · rintro (h | h)
        · exact ⟨Or.inl h, h ▸ ha⟩
        · exact ⟨Or.inr h.1, h.2⟩
      · rintro ⟨h | h, hk⟩
        · exact Or.inl h
        · exact Or.inr ⟨h, hk⟩

lemma dictErase_sublist (l : List (κ × α)) (k : κ) : (dictErase l k).Sublist l := by
  induction l with
  | nil => simp [dictErase]
  | cons a as ih =>
    rw [dictErase]
    split
    · exact List.sublist_cons_self a as
    · exact ih.cons₂ a

lemma keys_dictErase_nodup (l : List (κ × α)) (k : κ)
    (hnd : (l.map Prod.fst).Nodup) : ((dictErase l k).map Prod.fst).Nodup :=
  ((dictErase_sublist l k).map Prod.fst).nodup hnd

lemma dictGet?_mem {l : List (κ × α)} {k : κ} {v : α} (h : dictGet? l k = some v) : (k, v) ∈ l := by
  induction l with
  | nil => simp [dictGet?] at h
  | cons e es ih =>
    rw [dictGet?] at h
    split at h
    · cases h
      rename_i he
      rw [List.mem_cons]
      left
      rw [← he]
    · exact List.mem_cons_of_mem _ (ih h)

lemma dictGet?_of_mem {l : List (κ × α)} {e : κ × α}
    (hnd : (l.map Prod.fst).Nodup) (h : e ∈ l) : dictGet? l e.1 = some e.2 := by
  induction l with
  | nil => simp at h
  | cons a as ih =>
    rw [List.map_cons, List.nodup_cons] at hnd
    rw [List.mem_cons] at h
    rcases h with h | h
    · rw [dictGet?, if_pos (by rw [h])]
      rw [h]
    · rw [dictGet?, if_neg (fun ha => hnd.1 (by rw [ha]; exact List.mem_map_of_mem Prod.fst h))]
      exact ih hnd.2 h

end DictLemmas

/-! ## C7: place then remove restores occupancy; ids never reused -/

lemma writeCells_write_then_zero (size : Nat) (cells : List Coord) (g : List Nat) (v : Nat)
    (h0 : ∀ c ∈ cells, inBounds size c = true → gridGet size g c = 0) :
    writeCells size (writeCells size g cells v) cells 0 = g := by
  apply List.ext_getElem?
  intro i
  rw [getElem?_writeCells, getElem?_writeCells]
  by_cases hany : (cells.any fun c => inBounds size c && decide (flatIdx size c = i)) = true
  · rw [if_pos hany, if_pos hany]
    obtain ⟨c, hc, hcond⟩ := List.any_eq_true.1 hany
    simp only [Bool.and_eq_true, decide_eq_true_eq] at hcond
    have hg : gridGet size g c = 0 := h0 c hc hcond.1
    rw [gridGet, if_pos hcond.1, List.getD_eq_getElem?_getD, hcond.2] at hg
    cases hgi : g[i]? with
    | none => simp
    | some a =>
      rw [hgi] at hg
      simp only [Option.getD_some] at hg
      simp [hg]
  · rw [if_neg hany, if_neg hany]

lemma remove_keeps_next_id (g : CubeGrid) (pid : Nat) :
    (g.remove pid).1.next_id = g.next_id := by
  cases h : dictGet? g.placed pid <;> simp [CubeGrid.remove, h]

lemma place_ok_id (g : CubeGrid) (b : Brick) (pos : Coord) (n : Nat)
    (h : (g.place b pos).2 = .ok n) : n = g.next_id := by
  rw [CubeGrid.place] at h
  split at h
  · simp only at h
    cases h
    rfl
  · simp only at h
    cases h

/-- C7: if `can_place` holds, `place` returns the current `next_id`, a
subsequent `remove` of that id succeeds and restores the occupancy array
cell-for-cell, `next_id` stays incremented (`remove` never decreases it on
any state), and the next successful `place` hands out a strictly larger
id, so the freed id is not reused. -/
theorem place_then_remove_restores (g : CubeGrid) (b : Brick) (pos : Coord)
    (h : g.can_place b pos = true) :
    (g.place b pos).2 = .ok g.next_id
    ∧ ((g.place b pos).1.remove g.next_id).2 = none
    ∧ ((g.place b pos).1.remove g.next_id).1.grid = g.grid
    ∧ ((g.place b pos).1.remove g.next_id).1.next_id = g.next_id + 1
    ∧ (∀ (g' : CubeGrid) (pid : Nat), (g'.remove pid).1.next_id = g'.next_id)
    ∧ (∀ (b' : Brick) (pos' : Coord) (n : Nat),
        (((g.place b pos).1.remove g.next_id).1.place b' pos').2 = .ok n → g.next_id < n) := by
  have hplace : g.place b pos =
      ({ g with grid := writeCells g.size g.grid (cellsOf b pos) g.next_id
                placed := dictSet g.placed g.next_id ⟨g.next_id, b, pos⟩
                next_id := g.next_id + 1 }, .ok g.next_id) := by
    rw [CubeGrid.place, if_pos h]
  have hget : dictGet? (g.place b pos).1.placed g.next_id = some ⟨g.next_id, b, pos⟩ := by
    rw [hplace]
    exact dictGet?_dictSet_self _ _ _
  have h0 : ∀ c ∈ cellsOf b pos, inBounds g.size c = true → gridGet g.size g.grid c = 0 := by
    intro c hc _
    have := List.all_eq_true.1 h c hc
    simp only [Bool.and_eq_true, decide_eq_true_eq] at this
    exact this.2
  have hremove : (g.place b pos).1.remove g.next_id =
      ({ (g.place b pos).1 with
          placed := dictErase (g.place b pos).1.placed g.next_id
          grid := writeCells g.size (g.place b pos).1.grid (cellsOf b pos) 0 }, none) := by
    rw [CubeGrid.remove, hget]
    rw [hplace]
  refine ⟨by rw [hplace], by rw [hremove], ?_, ?_, remove_keeps_next_id, ?_⟩
  · rw [hremove]
    simp only
    rw [hplace]
    simp only
    exact writeCells_write_then_zero g.size (cellsOf b pos) g.grid g.next_id h0
  · rw [hremove]
    simp only
    rw [hplace]
  · intro b' pos' n hn
    have hid := place_ok_id _ _ _ _ hn
    have h2 : ((g.place b pos).1.remove g.next_id).1.next_id = g.next_id + 1 := by
      rw [hremove]
      simp only
      rw [hplace]
    rw [h2] at hid
    omega

/-- C7 witness: a size-2 grid, the `'O'` template at the origin. -/
theorem place_then_remove_restores_witness :
    (CubeGrid.init 2).can_place oTemplate (0, 0, 0) = true
    ∧ (((CubeGrid.init 2).place oTemplate (0, 0, 0)).1.remove (CubeGrid.init 2).next_id).1.grid
        = (CubeGrid.init 2).grid :=
  ⟨by decide, (place_then_remove_restores (CubeGrid.init 2) oTemplate (0, 0, 0) (by decide)).2.2.1⟩

/-! ## C5: move error taxonomy, atomicity, success effect -/

/-- C5: `move` raises `KeyError` for an id absent from the registry and
`ValueError` when `can_move` fails, and in both failure cases returns the
state completely unchanged (occupancy and registry; the source raises
before its first mutation).  On success it clears exactly the old cells,
writes the entry's stored pid (equal to the id on every program state, cf.
the grid invariant) into exactly the new cells, and changes only that
registry entry, to the same pid and brick at the new position. -/
theorem move_error_cases_and_success (g : CubeGrid) (pid : Nat) (newPos : Coord)
    (hlen : g.grid.length = g.size * g.size * g.size) :
    (dictGet? g.placed pid = none →
      g.move pid newPos = (g, some (.keyError "placement id not found")))
    ∧ (∀ p : Placement, dictGet? g.placed pid = some p → g.can_move pid newPos = false →
      g.move pid newPos =
        (g, some (.valueError "cannot move to the requested position (out of bounds or overlap)")))
    ∧ (∀ p : Placement, dictGet? g.placed pid = some p → g.can_move pid newPos = true →
      (g.move pid newPos).2 = none
      ∧ (∀ c : Coord, gridGet g.size (g.move pid newPos).1.grid c =
          if c ∈ cellsOf p.brick newPos ∧ inBounds g.size c = true then p.pid
          else if c ∈ cellsOf p.brick p.pos ∧ inBounds g.size c = true then 0
          else gridGet g.size g.grid c)
      ∧ dictGet? (g.move pid newPos).1.placed pid = some ⟨p.pid, p.brick, newPos⟩
      ∧ (∀ k : Nat, k ≠ pid → dictGet? (g.move pid newPos).1.placed k = dictGet? g.placed k)
      ∧ (g.move pid newPos).1.next_id = g.next_id
      ∧ (g.move pid newPos).1.size = g.size) := by
  refine ⟨fun hnone => by simp [CubeGrid.move, hnone], fun p hp hcm => ?_, fun p hp hcm => ?_⟩
  · simp only [CubeGrid.move, hp]
    rw [if_neg (by rw [hcm]; exact Bool.false_ne_true)]
  · have hmove : g.move pid newPos =
        ({ g with grid := writeCells g.size
                    (writeCells g.size g.grid (cellsOf p.brick p.pos) 0)
                    (cellsOf p.brick newPos) p.pid
                  placed := dictSet g.placed pid ⟨p.pid, p.brick, newPos⟩ }, none) := by
      simp only [CubeGrid.move, hp]
      rw [if_pos hcm]
    refine ⟨by rw [hmove], fun c => ?_, ?_, fun k hk => ?_, by rw [hmove], by rw [hmove]⟩
    · rw [hmove]
      simp only
      rw [gridGet_writeCells _ _ _ _ _ (by rw [length_writeCells]; exact hlen),
        gridGet_writeCells _ _ _ _ _ hlen]
    · rw [hmove]
      exact dictGet?_dictSet_self _ _ _
    · rw [hmove]
      exact dictGet?_dictSet_ne _ _ _ _ hk

/-- C5 witness: a size-2 grid with one placed `'O'`, moved onto its own
footprint (a no-op move, always legal). -/
theorem move_error_cases_and_success_witness :
    (((CubeGrid.init 2).place oTemplate (0, 0, 0)).1.grid.length =
        ((CubeGrid.init 2).place oTemplate (0, 0, 0)).1.size *
          ((CubeGrid.init 2).place oTemplate (0, 0, 0)).1.size *
          ((CubeGrid.init 2).place oTemplate (0, 0, 0)).1.size
      ∧ dictGet? ((CubeGrid.init 2).place oTemplate (0, 0, 0)).1.placed 1 =
          some ⟨1, oTemplate, (0, 0, 0)⟩
      ∧ ((CubeGrid.init 2).place oTemplate (0, 0, 0)).1.can_move 1 (0, 0, 0) = true)
    ∧ (((CubeGrid.init 2).place oTemplate (0, 0, 0)).1.move 1 (0, 0, 0)).2 = none :=
  ⟨⟨by decide, by decide, by decide⟩,
    ((move_error_cases_and_success ((CubeGrid.init 2).place oTemplate (0, 0, 0)).1 1 (0, 0, 0)
      (by decide)).2.2 ⟨1, oTemplate, (0, 0, 0)⟩ (by decide) (by decide)).1⟩

/-! ## C4: loading leaves the placement caches untouched -/

/-- C4 (amended): `load_from_file` leaves `valid_placements` and
`valid_rotations` unchanged in every case — the loader assigns only
`size`, `grid`, `placed` and (on success) `next_id`, and never recomputes
the caches, not even when the loaded size differs from the size they were
built for. -/
theorem load_never_recomputes_caches (g : CubeGrid) (d : SaveData) :
    (g.load_from_data d).1.valid_placements = g.valid_placements
    ∧ (g.load_from_data d).1.valid_rotations = g.valid_rotations := by
  rw [CubeGrid.load_from_data]
  rcases loadRecords (d.size.getD 6)
      (List.replicate (d.size.getD 6 * d.size.getD 6 * d.size.getD 6) 0) [] 0 d.placed with
    ⟨grid, placed, maxPid, err⟩
  cases err <;> exact ⟨rfl, rfl⟩

/-- C4 counterexample: loading a size-2 snapshot into a grid whose caches
were built for size 3 leaves the size-3 caches in place — they are not
equal to the caches a fresh size-2 construction computes (in a 2×2×2 grid
no orientation of `'T'` fits anywhere, yet the stale cache still lists
origins for it). -/
theorem load_size_change_keeps_stale_caches :
    (CubeGrid.init 3).size = 3
    ∧ ((CubeGrid.init 3).load_from_data ⟨some 2, none, []⟩).1.size = 2
    ∧ ((CubeGrid.init 3).load_from_data ⟨some 2, none, []⟩).1.valid_placements
        ≠ (CubeGrid.init 2).valid_placements :=
  ⟨by decide, by decide, by decide⟩

/-! ## C1: the approximate infeasibility oracle -/

lemma can_not_place_eq (g : CubeGrid) (b : Brick) :
    g.can_not_place_somewhere b =
      ((dictGetD g.valid_placements b.name []).filter fun p =>
          decide (gridGet g.size g.grid p = 0)).any fun e =>
        ! (dictGetD g.valid_rotations b.name []).any fun rb => g.can_place rb e := by
  rw [CubeGrid.can_not_place_somewhere]
  by_cases h : ((dictGetD g.valid_placements b.name []).filter fun p =>
      decide (gridGet g.size g.grid p = 0)).isEmpty = true
  · rw [List.isEmpty_iff] at h
    simp [h]
  · simp [h]

set_option maxRecDepth 200000 in
/-- C1 (amended): on the freshly constructed empty 6×6×6 grid,
`can_not_place_somewhere(T)` is `false`; and on every state it returns
`true` exactly when some cached valid-placement origin that is currently
empty admits no cached orientation passing a live `can_place` — in
particular it is `false`, not `true`, once no cached origin is empty
(the quick reject), e.g. on a completely occupied grid. -/
theorem can_not_place_somewhere_characterized :
    (CubeGrid.init 6).can_not_place_somewhere tTemplate = false
    ∧ ∀ (g : CubeGrid) (b : Brick),
        g.can_not_place_somewhere b = true ↔
          ∃ e, e ∈ dictGetD g.valid_placements b.name []
            ∧ gridGet g.size g.grid e = 0
            ∧ ∀ rb, rb ∈ dictGetD g.valid_rotations b.name [] → g.can_place rb e = false := by
  refine ⟨by decide, fun g b => ?_⟩
  rw [can_not_place_eq, List.any_eq_true]
  constructor
  · rintro ⟨e, he, hcond⟩
    rw [List.mem_filter, decide_eq_true_eq] at he
    rw [Bool.not_eq_true', List.any_eq_false] at hcond
    refine ⟨e, he.1, he.2, fun rb hrb => ?_⟩
    have := hcond rb hrb
    rwa [Bool.not_eq_true] at this
  · rintro ⟨e, he, hz, hall⟩
    refine ⟨e, ?_, ?_⟩
    · rw [List.mem_filter, decide_eq_true_eq]
      exact ⟨he, hz⟩
    · rw [Bool.not_eq_true', List.any_eq_false]
      intro rb hrb
      rw [Bool.not_eq_true, hall rb hrb]

/-- The 54 origins at which `'O'` bricks tile the whole 6×6×6 grid. -/
def oFillOrigins : List Coord :=
  ([0, 2, 4] : List Int).flatMap fun x => ([0, 2, 4] : List Int).flatMap fun y =>
    ([0, 1, 2, 3, 4, 5] : List Int).map fun z => (x, y, z)

/-- The grid after successfully placing an `'O'` at each of the 54 origins:
every cell is occupied. -/
def oFilledGrid : CubeGrid :=
  oFillOrigins.foldl (fun acc p => (acc.place oTemplate p).1) (CubeGrid.init 6)

set_option maxRecDepth 200000 in
/-- C1 counterexample: after filling the 6×6×6 grid completely by 54
successful `place` calls (`num_left = 0`), `can_not_place_somewhere(T)`
returns `false` — the quick reject fires because no cached origin is
empty — not `true` as the claim states. -/
theorem full_grid_oracle_is_false :
    (oFilledGrid.num_left, oFilledGrid.can_not_place_somewhere tTemplate) = (0, false) := by
  decide

/-! ## The grid invariant (C9) and its preservation -/

lemma entry_eq_of_key_eq {κ α : Type} [DecidableEq κ] {l : List (κ × α)}
    (hnd : (l.map Prod.fst).Nodup) {e e' : κ × α}
    (he : e ∈ l) (he' : e' ∈ l) (hk : e.1 = e'.1) : e = e' := by
  induction l with
  | nil => simp at he
  | cons a as ih =>
    rw [List.map_cons, List.nodup_cons] at hnd
    rw [List.mem_cons] at he he'
    rcases he with he | he <;> rcases he' with he' | he'
    · rw [he, he']
    · exact absurd (by rw [he] at hk; rw [hk]; exact List.mem_map_of_mem Prod.fst he') hnd.1
    · exact absurd (by rw [he'] at hk; rw [← hk]; exact List.mem_map_of_mem Prod.fst he) hnd.1
    · exact ih hnd.2 he he'

/-- The strong engine-state invariant: well-sized grid, positive distinct
ids below `next_id`, each registry value storing its own key as pid,
4-cube bricks, in-bounds cells, every cell of a placement holding its id,
and every non-empty cell accounted for by a registry entry. -/
structure GInv (g : CubeGrid) : Prop where
  glen : g.grid.length = g.size * g.size * g.size
  next_pos : 0 < g.next_id
  keys_nodup : (g.placed.map Prod.fst).Nodup
  ids_pos : ∀ e ∈ g.placed, 0 < e.1
  ids_lt : ∀ e ∈ g.placed, e.1 < g.next_id
  pid_eq : ∀ e ∈ g.placed, e.2.pid = e.1
  cubes4 : ∀ e ∈ g.placed, e.2.brick.cubes.length = 4
  inb : ∀ e ∈ g.placed, ∀ c ∈ cellsOf e.2.brick e.2.pos, inBounds g.size c = true
  own : ∀ e ∈ g.placed, ∀ c ∈ cellsOf e.2.brick e.2.pos, gridGet g.size g.grid c = e.1
  covered : ∀ c : Coord, inBounds g.size c = true → gridGet g.size g.grid c ≠ 0 →
    ∃ e ∈ g.placed, e.1 = gridGet g.size g.grid c ∧ c ∈ cellsOf e.2.brick e.2.pos

lemma inv_init (size : Nat) : GInv (CubeGrid.init size) := by
  refine ⟨by simp [CubeGrid.init], by simp [CubeGrid.init], by simp [CubeGrid.init],
    by simp [CubeGrid.init], by simp [CubeGrid.init], by simp [CubeGrid.init],
    by simp [CubeGrid.init], by simp [CubeGrid.init], by simp [CubeGrid.init],
    fun c _ hne => absurd ?_ hne⟩
  show gridGet size (CubeGrid.init size).grid c = 0
  exact gridGet_replicate size _ c

lemma inv_clear {g : CubeGrid} (h : GInv g) : GInv g.clear := by
  refine ⟨by simp [CubeGrid.clear, h.glen], by simp [CubeGrid.clear], by simp [CubeGrid.clear],
    by simp [CubeGrid.clear], by simp [CubeGrid.clear], by simp [CubeGrid.clear],
    by simp [CubeGrid.clear], by simp [CubeGrid.clear], by simp [CubeGrid.clear],
    fun c _ hne => absurd ?_ hne⟩
  show gridGet g.size (g.grid.map fun _ => 0) c = 0
  exact gridGet_map_zero g.size g.grid c

lemma can_place_cells {g : CubeGrid} {b : Brick} {pos : Coord}
    (h : g.can_place b pos = true) :
    ∀ c ∈ cellsOf b pos, inBounds g.size c = true ∧ gridGet g.size g.grid c = 0 := by
  intro c hc
  have := List.all_eq_true.1 h c hc
  simpa using this

lemma inv_place {g : CubeGrid} {b : Brick} {pos : Coord}
    (h : GInv g) (h4 : b.cubes.length = 4) : GInv (g.place b pos).1 := by
  by_cases hcp : g.can_place b pos = true
  · have hplace : (g.place b pos).1 =
        { g with grid := writeCells g.size g.grid (cellsOf b pos) g.next_id
                 placed := dictSet g.placed g.next_id ⟨g.next_id, b, pos⟩
                 next_id := g.next_id + 1 } := by
      rw [CubeGrid.place, if_pos hcp]
    have hfresh : g.next_id ∉ g.placed.map Prod.fst := by
      intro hmem
      obtain ⟨e, he, hk⟩ := List.mem_map.1 hmem
      exact absurd (hk ▸ h.ids_lt e he) (lt_irrefl _)
    have hplaced : (g.place b pos).1.placed = g.placed ++ [(g.next_id, ⟨g.next_id, b, pos⟩)] := by
      rw [hplace]
      exact dictSet_of_not_mem_keys _ _ _ hfresh
    have hmem : ∀ e : Nat × Placement, e ∈ (g.place b pos).1.placed ↔
        e ∈ g.placed ∨ e = (g.next_id, ⟨g.next_id, b, pos⟩) := by
      intro e
      rw [hplaced, List.mem_append, List.mem_singleton]
    have hgrid : (g.place b pos).1.grid =
        writeCells g.size g.grid (cellsOf b pos) g.next_id := by rw [hplace]
    have hsize : (g.place b pos).1.size = g.size := by rw [hplace]
    have hnext : (g.place b pos).1.next_id = g.next_id + 1 := by rw [hplace]
    have hget : ∀ c : Coord, gridGet g.size (g.place b pos).1.grid c =
        if c ∈ cellsOf b pos ∧ inBounds g.size c = true then g.next_id
        else gridGet g.size g.grid c := by
      intro c
      rw [hgrid]
      exact gridGet_writeCells _ _ _ _ _ h.glen
    refine ⟨?_, ?_, ?_, ?_, ?_, ?_, ?_, ?_, ?_, ?_⟩
    · rw [hgrid, hsize, length_writeCells]
      exact h.glen
    · rw [hnext]
      omega
    · rw [hplaced, List.map_append]
      refine List.Nodup.append h.keys_nodup (by simp) ?_
      intro x hx hk
      simp only [List.map_cons, List.map_nil, List.mem_singleton] at hk
      exact hfresh (hk ▸ hx)
    · intro e he
      rcases (hmem e).1 he with he | he
      · exact h.ids_pos e he
      · rw [he]
        exact h.next_pos
    · intro e he
      rw [hnext]
      rcases (hmem e).1 he with he | he
      · exact Nat.lt_succ_of_lt (h.ids_lt e he)
      · rw [he]
        exact Nat.lt_succ_self _
    · intro e he
      rcases (hmem e).1 he with he | he
      · exact h.pid_eq e he
      · rw [he]
    · intro e he
      rcases (hmem e).1 he with he | he
      · exact h.cubes4 e he
      · rw [he]
        exact h4
    · intro e he c hc
      rw [hsize]
      rcases (hmem e).1 he with he | he
      · exact h.inb e he c hc
      · rw [he] at hc
        exact (can_place_cells hcp c hc).1
    · intro e he c hc
      rw [hsize, hget]
      rcases (hmem e).1 he with he | he
      · have hnotnew : c ∉ cellsOf b pos := by
          intro hcnew
          have hzero := (can_place_cells hcp c hcnew).2
          have hown := h.own e he c hc
          have := h.ids_pos e he
          omega
        rw [if_neg (fun hh => hnotnew hh.1)]
        exact h.own e he c hc
      · rw [he] at hc ⊢
        simp only at hc ⊢
        rw [if_pos ⟨hc, (can_place_cells hcp c hc).1⟩]
    · intro c hcb hne
      rw [hsize] at hcb hne ⊢
      rw [hget] at hne ⊢
      by_cases hcell : c ∈ cellsOf b pos ∧ inBounds g.size c = true
      · rw [if_pos hcell]
        refine ⟨(g.next_id, ⟨g.next_id, b, pos⟩), (hmem _).2 (Or.inr rfl), rfl, ?_⟩
        exact hcell.1
      · rw [if_neg hcell] at hne ⊢
        obtain ⟨e, he, hk, hc⟩ := h.covered c hcb hne
        exact ⟨e, (hmem e).2 (Or.inl he), hk, hc⟩
  · have : (g.place b pos).1 = g := by
      rw [CubeGrid.place, if_neg hcp]
    rw [this]
    exact h

lemma inv_remove {g : CubeGrid} (h : GInv g) (pid : Nat) : GInv (g.remove pid).1 := by
  cases hp : dictGet? g.placed pid with
  | none =>
    have hsame : (g.remove pid).1 = g := by simp [CubeGrid.remove, hp]
    rw [hsame]
    exact h
  | some p =>
    have he0 : (pid, p) ∈ g.placed := dictGet?_mem hp
    have hremove : (g.remove pid).1 =
        { g with placed := dictErase g.placed pid
                 grid := writeCells g.size g.grid (cellsOf p.brick p.pos) 0 } := by
      simp [CubeGrid.remove, hp]
    have hmem : ∀ e : Nat × Placement,
        e ∈ (g.remove pid).1.placed ↔ e ∈ g.placed ∧ e.1 ≠ pid := by
      intro e
      rw [hremove]
      exact mem_dictErase_iff _ _ h.keys_nodup e
    have hsize : (g.remove pid).1.size = g.size := by rw [hremove]
    have hnext : (g.remove pid).1.next_id = g.next_id := by rw [hremove]
    have hget : ∀ c : Coord, gridGet g.size (g.remove pid).1.grid c =
        if c ∈ cellsOf p.brick p.pos ∧ inBounds g.size c = true then 0
        else gridGet g.size g.grid c := by
      intro c
      rw [hremove]
      exact gridGet_writeCells _ _ _ _ _ h.glen
    have hdisj : ∀ e ∈ g.placed, e.1 ≠ pid → ∀ c ∈ cellsOf e.2.brick e.2.pos,
        c ∉ cellsOf p.brick p.pos := by
      intro e he hne c hc hc0
      have h1 := h.own e he c hc
      have h2 := h.own (pid, p) he0 c hc0
      exact hne (h1.symm.trans h2)
    refine ⟨?_, ?_, ?_, ?_, ?_, ?_, ?_, ?_, ?_, ?_⟩
    · rw [hremove]
      simp only
      rw [length_writeCells]
      exact h.glen
    · rw [hnext]
      exact h.next_pos
    · rw [hremove]
      exact keys_dictErase_nodup _ _ h.keys_nodup
    · intro e he
      exact h.ids_pos e ((hmem e).1 he).1
    · intro e he
      rw [hnext]
      exact h.ids_lt e ((hmem e).1 he).1
    · intro e he
      exact h.pid_eq e ((hmem e).1 he).1
    · intro e he
      exact h.cubes4 e ((hmem e).1 he).1
    · intro e he c hc
      rw [hsize]
      exact h.inb e ((hmem e).1 he).1 c hc
    · intro e he c hc
      rw [hsize, hget]
      obtain ⟨he', hne⟩ := (hmem e).1 he
      rw [if_neg (fun hh => hdisj e he' hne c hc hh.1)]
      exact h.own e he' c hc
    · intro c hcb hne
      rw [hsize] at hcb hne ⊢
      rw [hget] at hne ⊢
      by_cases hcell : c ∈ cellsOf p.brick p.pos ∧ inBounds g.size c = true
      · rw [if_pos hcell] at hne
        exact absurd rfl hne
      · rw [if_neg hcell] at hne ⊢
        obtain ⟨e, he, hk, hc⟩ := h.covered c hcb hne
        have hnep : e.1 ≠ pid := by
          intro hkey
          have : e = (pid, p) := entry_eq_of_key_eq h.keys_nodup he he0 hkey
          rw [this] at hc
          exact hcell ⟨hc, hcb⟩
        exact ⟨e, (hmem e).2 ⟨he, hnep⟩, hk, hc⟩

lemma inv_move {g : CubeGrid} (h : GInv g) (pid : Nat) (newPos : Coord) :
    GInv (g.move pid newPos).1 := by
  cases hp : dictGet? g.placed pid with
  | none =>
    have hsame : (g.move pid newPos).1 = g := by simp [CubeGrid.move, hp]
    rw [hsame]
    exact h
  | some p =>
    by_cases hcm : g.can_move pid newPos = true
    · have he0 : (pid, p) ∈ g.placed := dictGet?_mem hp
      have hpid : p.pid = pid := h.pid_eq (pid, p) he0
      have hmove : (g.move pid newPos).1 =
          { g with grid := writeCells g.size
                      (writeCells g.size g.grid (cellsOf p.brick p.pos) 0)
                      (cellsOf p.brick newPos) p.pid
                   placed := dictSet g.placed pid ⟨p.pid, p.brick, newPos⟩ } := by
        simp only [CubeGrid.move, hp]
        rw [if_pos hcm]
      have hcm' : ∀ c ∈ cellsOf p.brick newPos, inBounds g.size c = true ∧
          (gridGet g.size g.grid c = 0 ∨ gridGet g.size g.grid c = pid) := by
        intro c hc
        simp only [CubeGrid.can_move, hp] at hcm
        have := List.all_eq_true.1 hcm c hc
        simpa using this
      have hmem : ∀ e : Nat × Placement, e ∈ (g.move pid newPos).1.placed ↔
          e = (pid, ⟨p.pid, p.brick, newPos⟩) ∨ (e ∈ g.placed ∧ e.1 ≠ pid) := by
        intro e
        rw [hmove]
        exact mem_dictSet_iff _ _ _ h.keys_nodup e
      have hsize : (g.move pid newPos).1.size = g.size := by rw [hmove]
      have hnext : (g.move pid newPos).1.next_id = g.next_id := by rw [hmove]
      have hget : ∀ c : Coord, gridGet g.size (g.move pid newPos).1.grid c =
          if c ∈ cellsOf p.brick newPos ∧ inBounds g.size c = true then p.pid
          else if c ∈ cellsOf p.brick p.pos ∧ inBounds g.size c = true then 0
          else gridGet g.size g.grid c := by
        intro c
        rw [hmove]
        simp only
        rw [gridGet_writeCells _ _ _ _ _ (by rw [length_writeCells]; exact h.glen),
          gridGet_writeCells _ _ _ _ _ h.glen]
      have hdisj_old : ∀ e ∈ g.placed, e.1 ≠ pid → ∀ c ∈ cellsOf e.2.brick e.2.pos,
          c ∉ cellsOf p.brick p.pos := by
        intro e he hne c hc hc0
        have h1 := h.own e he c hc
        have h2 := h.own (pid, p) he0 c hc0
        exact hne (h1.symm.trans h2)
      have hdisj_new : ∀ e ∈ g.placed, e.1 ≠ pid → ∀ c ∈ cellsOf e.2.brick e.2.pos,
          c ∉ cellsOf p.brick newPos := by
        intro e he hne c hc hcnew
        have h1 := h.own e he c hc
        have h2 := (hcm' c hcnew).2
        have hpos := h.ids_pos e he
        rcases h2 with h2 | h2
        · omega
        · exact hne (h1.symm.trans h2)
      refine ⟨?_, ?_, ?_, ?_, ?_, ?_, ?_, ?_, ?_, ?_⟩
      · rw [hmove]
        simp only
        rw [length_writeCells, length_writeCells]
        exact h.glen
      · rw [hnext]
        exact h.next_pos
      · rw [hmove]
        exact keys_dictSet_nodup _ _ _ h.keys_nodup
      · intro e he
        rcases (hmem e).1 he with he' | he'
        · rw [he']
          exact h.ids_pos (pid, p) he0
        · exact h.ids_pos e he'.1
      · intro e he
        rw [hnext]
        rcases (hmem e).1 he with he' | he'
        · rw [he']
          exact h.ids_lt (pid, p) he0
        · exact h.ids_lt e he'.1
      · intro e he
        rcases (hmem e).1 he with he' | he'
        · rw [he']
          exact hpid
        · exact h.pid_eq e he'.1
      · intro e he
        rcases (hmem e).1 he with he' | he'
        · rw [he']
          exact h.cubes4 (pid, p) he0
        · exact h.cubes4 e he'.1
      · intro e he c hc
        rw [hsize]
        rcases (hmem e).1 he with he' | he'
        · rw [he'] at hc
          exact (hcm' c hc).1
        · exact h.inb e he'.1 c hc
      · intro e he c hc
        rw [hsize, hget]
        rcases (hmem e).1 he with he' | he'
        · rw [he'] at hc ⊢
          simp only at hc ⊢
          rw [if_pos ⟨hc, (hcm' c hc).1⟩, hpid]
        · rw [if_neg (fun hh => hdisj_new e he'.1 he'.2 c hc hh.1),
            if_neg (fun hh => hdisj_old e he'.1 he'.2 c hc hh.1)]
          exact h.own e he'.1 c hc
      · intro c hcb hne
        rw [hsize] at hcb hne ⊢
        rw [hget] at hne ⊢
        by_cases hnew : c ∈ cellsOf p.brick newPos ∧ inBounds g.size c = true
        · rw [if_pos hnew]
          exact ⟨(pid, ⟨p.pid, p.brick, newPos⟩), (hmem _).2 (Or.inl rfl), hpid.symm, hnew.1⟩
        · rw [if_neg hnew] at hne ⊢
          by_cases hold : c ∈ cellsOf p.brick p.pos ∧ inBounds g.size c = true
          · rw [if_pos hold] at hne
            exact absurd rfl hne
          · rw [if_neg hold] at hne ⊢
            obtain ⟨e, he, hk, hc⟩ := h.covered c hcb hne
            have hnep : e.1 ≠ pid := by
              intro hkey
              have : e = (pid, p) := entry_eq_of_key_eq h.keys_nodup he he0 hkey
              rw [this] at hc
              exact hold ⟨hc, hcb⟩
            exact ⟨e, (hmem e).2 (Or.inr ⟨he, hnep⟩), hk, hc⟩
    · have hsame : (g.move pid newPos).1 = g := by
        simp only [CubeGrid.move, hp]
        rw [if_neg hcm]
      rw [hsame]
      exact h

/-- States reachable from a freshly constructed grid through the engine's
mutating operations.  Failed `place`/`remove`/`move` calls return the
state unchanged, so admitting them adds no states; `place` carries the
Python `Brick` constructor's 4-cube guarantee (every brick the program
can hand to `place` went through that constructor). -/
inductive Reachable : CubeGrid → Prop where
  | init (size : Nat) : Reachable (CubeGrid.init size)
  | place {g : CubeGrid} (b : Brick) (pos : Coord) (hg : Reachable g)
      (h4 : b.cubes.length = 4) : Reachable (g.place b pos).1
  | remove {g : CubeGrid} (pid : Nat) (hg : Reachable g) : Reachable (g.remove pid).1
  | move {g : CubeGrid} (pid : Nat) (newPos : Coord) (hg : Reachable g) :
      Reachable (g.move pid newPos).1
  | clear {g : CubeGrid} (hg : Reachable g) : Reachable g.clear

lemma inv_of_reachable {g : CubeGrid} (h : Reachable g) : GInv g := by
  induction h with
  | init size => exact inv_init size
  | place b pos hg h4 ih => exact inv_place ih h4
  | remove pid hg ih => exact inv_remove ih pid
  | move pid newPos hg ih => exact inv_move ih pid newPos
  | clear hg ih => exact inv_clear ih

/-- The invariant as the claim states it: an in-bounds cell holds id `P`
iff `P` is registered and the cell is the registered position plus some
cube offset of `P`'s brick; distinct placements occupy disjoint cell
sets; every placed cube lies within `[0, N)` on each axis. -/
def GridInvariant (g : CubeGrid) : Prop :=
  (∀ c : Coord, inBounds g.size c = true → ∀ pid : Nat, pid ≠ 0 →
    (gridGet g.size g.grid c = pid ↔
      ∃ e ∈ g.placed, e.1 = pid ∧ c ∈ cellsOf e.2.brick e.2.pos))
  ∧ (∀ e ∈ g.placed, ∀ e' ∈ g.placed, e ≠ e' →
      ∀ c : Coord, c ∈ cellsOf e.2.brick e.2.pos → c ∉ cellsOf e'.2.brick e'.2.pos)
  ∧ (∀ e ∈ g.placed, ∀ c ∈ cellsOf e.2.brick e.2.pos, inBounds g.size c = true)

lemma grid_invariant_of_ginv {g : CubeGrid} (h : GInv g) : GridInvariant g := by
  refine ⟨fun c hcb pid hpid => ⟨fun hg => ?_, fun hex => ?_⟩, fun e he e' he' hne c hc hc' => ?_,
    h.inb⟩
  · obtain ⟨e, he, hk, hc⟩ := h.covered c hcb (by rw [hg]; exact hpid)
    exact ⟨e, he, by rw [hk, hg], hc⟩
  · obtain ⟨e, he, hk, hc⟩ := hex
    rw [h.own e he c hc, hk]
  · have h1 := h.own e he c hc
    have h2 := h.own e' he' c hc'
    exact hne (entry_eq_of_key_eq h.keys_nodup he he' (h1.symm.trans h2))

/-- C9: every state reachable from a freshly constructed grid by `place`,
`remove`, `move`, and `clear` satisfies the grid invariant: an in-bounds
cell holds id `P` iff `P` is registered and the cell's coordinate is the
registered position of `P` plus some cube offset of `P`'s brick; distinct
placements occupy disjoint cell sets; every placed cube is in bounds. -/
theorem reachable_satisfies_grid_invariant (g : CubeGrid) (h : Reachable g) :
    GridInvariant g :=
  grid_invariant_of_ginv (inv_of_reachable h)

/-- C9 witness: a size-2 grid reached by one successful `place`. -/
theorem reachable_satisfies_grid_invariant_witness :
    oTemplate.cubes.length = 4
    ∧ GridInvariant ((CubeGrid.init 2).place oTemplate (0, 0, 0)).1 :=
  ⟨by decide, reachable_satisfies_grid_invariant _
    (Reachable.place oTemplate (0, 0, 0) (Reachable.init 2) (by decide))⟩

/-! ## C6: save / load round trip -/

/-- The coordinate whose flat index is `i`, for `i < size^3`. -/
def coordOfIdx (size i : Nat) : Coord :=
  ((i / (size * size) : Nat), ((i / size % size : Nat)), ((i % size : Nat)))

lemma coordOfIdx_spec (size i : Nat) (h : i < size * size * size) :
    inBounds size (coordOfIdx size i) = true ∧ flatIdx size (coordOfIdx size i) = i := by
  have hs : 0 < size := by
    rcases Nat.eq_zero_or_pos size with h0 | h0
    · rw [h0] at h
      simp at h
    · exact h0
  have hx : i / (size * size) < size := by
    rw [Nat.div_lt_iff_lt_mul (Nat.mul_pos hs hs)]
    calc i < size * size * size := h
      _ = size * (size * size) := by ring
  have hy : i / size % size < size := Nat.mod_lt _ hs
  have hz : i % size < size := Nat.mod_lt _ hs
  constructor
  · simp only [coordOfIdx, inBounds, decide_eq_true_eq]
    refine ⟨Int.ofNat_nonneg _, ?_, Int.ofNat_nonneg _, ?_, Int.ofNat_nonneg _, ?_⟩ <;>
      exact_mod_cast (by assumption)
  · simp only [coordOfIdx, flatIdx, Int.toNat_natCast]
    have hmm : i % (size * size) = i % size + size * (i / size % size) := Nat.mod_mul
    have hdm : i / (size * size) * (size * size) + i % (size * size) = i := by
      rw [Nat.mul_comm (i / (size * size)) (size * size)]
      exact Nat.div_add_mod i (size * size)
    calc i / (size * size) * size * size + i / size % size * size + i % size
        = i / (size * size) * (size * size) + (i % size + size * (i / size % size)) := by ring
      _ = i / (size * size) * (size * size) + i % (size * size) := by rw [hmm]
      _ = i := hdm

/-- The serialized record of a registry entry, as `to_dict` emits it. -/
def recOf (e : Nat × Placement) : PlacedRecord :=
  ⟨e.1, e.2.brick.name, e.2.brick.cubes, e.2.pos⟩

lemma to_dict_placed (g : CubeGrid) : g.to_dict.placed = g.placed.map recOf := rfl

lemma loadRecords_ok (size : Nat) (records : List PlacedRecord)
    (h4 : ∀ r ∈ records, r.cubes.length = 4) :
    ∀ (grid : List Nat) (placed : List (Nat × Placement)) (m : Nat),
      loadRecords size grid placed m records =
        (records.foldl (fun acc r =>
            writeCells size acc (cellsOf ⟨r.cubes, r.name⟩ r.pos) r.pid) grid,
         records.foldl (fun acc r =>
            dictSet acc r.pid ⟨r.pid, ⟨r.cubes, r.name⟩, r.pos⟩) placed,
         records.foldl (fun m r => max m r.pid) m,
         none) := by
  induction records with
  | nil =>
    intro grid placed m
    rfl
  | cons r rs ih =>
    intro grid placed m
    rw [loadRecords, if_pos (h4 r (List.mem_cons_self r rs))]
    simp only [List.foldl_cons]
    exact ih (fun r' hr' => h4 r' (List.mem_cons_of_mem _ hr')) _ _ _

lemma length_foldl_write (size : Nat) (records : List PlacedRecord) :
    ∀ grid : List Nat,
      (records.foldl (fun acc r =>
        writeCells size acc (cellsOf ⟨r.cubes, r.name⟩ r.pos) r.pid) grid).length = grid.length := by
  induction records with
  | nil => intro grid; rfl
  | cons r rs ih =>
    intro grid
    rw [List.foldl_cons, ih, length_writeCells]

lemma foldl_dictSet_fresh (records : List PlacedRecord) :
    ∀ acc : List (Nat × Placement),
      (records.map fun r => r.pid).Nodup →
      (∀ r ∈ records, r.pid ∉ acc.map Prod.fst) →
      records.foldl (fun a r => dictSet a r.pid ⟨r.pid, ⟨r.cubes, r.name⟩, r.pos⟩) acc =
        acc ++ records.map fun r =>
          ((r.pid, ⟨r.pid, ⟨r.cubes, r.name⟩, r.pos⟩) : Nat × Placement) := by
  induction records with
  | nil =>
    intro acc _ _
    simp
  | cons r rs ih =>
    intro acc hnd hfresh
    rw [List.map_cons, List.nodup_cons] at hnd
    rw [List.foldl_cons, dictSet_of_not_mem_keys _ _ _ (hfresh r (List.mem_cons_self r rs)),
      ih _ hnd.2 ?_, List.map_cons, List.append_assoc, List.singleton_append]
    intro r' hr'
    rw [List.map_append]
    rw [List.mem_append]
    rintro (hin | hin)
    · exact hfresh r' (List.mem_cons_of_mem _ hr') hin
    · simp only [List.map_cons, List.map_nil, List.mem_singleton] at hin
      exact hnd.1 (hin ▸ List.mem_map_of_mem (fun r => r.pid) hr')

lemma gridGet_foldl_write_untouched (size : Nat) (c : Coord) (records : List PlacedRecord) :
    ∀ grid : List Nat, grid.length = size * size * size →
      (∀ r ∈ records, ¬(c ∈ cellsOf ⟨r.cubes, r.name⟩ r.pos ∧ inBounds size c = true)) →
      gridGet size (records.foldl (fun acc r =>
          writeCells size acc (cellsOf ⟨r.cubes, r.name⟩ r.pos) r.pid) grid) c
        = gridGet size grid c := by
  induction records with
  | nil =>
    intro grid _ _
    rfl
  | cons r rs ih =>
    intro grid hlen hunt
    rw [List.foldl_cons,
      ih _ (by rw [length_writeCells]; exact hlen) (fun r' hr' => hunt r' (List.mem_cons_of_mem _ hr')),
      gridGet_writeCells _ _ _ _ _ hlen, if_neg (hunt r (List.mem_cons_self r rs))]

lemma gridGet_foldl_write_hit (size : Nat) (c : Coord) (records : List PlacedRecord) :
    ∀ grid : List Nat, grid.length = size * size * size →
      (records.map fun r => r.pid).Nodup →
      ∀ r ∈ records, c ∈ cellsOf ⟨r.cubes, r.name⟩ r.pos → inBounds size c = true →
      (∀ r' ∈ records, c ∈ cellsOf ⟨r'.cubes, r'.name⟩ r'.pos → r' = r) →
      gridGet size (records.foldl (fun acc r =>
          writeCells size acc (cellsOf ⟨r.cubes, r.name⟩ r.pos) r.pid) grid) c = r.pid := by
  induction records with
  | nil =>
    intro grid _ _ r hr
    simp at hr
  | cons a rs ih =>
    intro grid hlen hnd r hr hc hcb huniq
    rw [List.map_cons, List.nodup_cons] at hnd
    rcases List.mem_cons.1 hr with hra | hrs
    · rw [List.foldl_cons]
      have hunt : ∀ r' ∈ rs, ¬(c ∈ cellsOf ⟨r'.cubes, r'.name⟩ r'.pos ∧ inBounds size c = true) := by
        intro r' hr' hcontra
        have hra' : r' = r := huniq r' (List.mem_cons_of_mem _ hr') hcontra.1
        have hars : a ∈ rs := by
          rw [← hra, ← hra']
          exact hr'
        exact hnd.1 (List.mem_map_of_mem (fun r => r.pid) hars)
      rw [gridGet_foldl_write_untouched size c rs _ (by rw [length_writeCells]; exact hlen) hunt,
        gridGet_writeCells _ _ _ _ _ hlen, if_pos ⟨hra ▸ hc, hcb⟩, hra]
    · rw [List.foldl_cons]
      exact ih _ (by rw [length_writeCells]; exact hlen) hnd.2 r hrs hc hcb
        (fun r' hr' hc' => huniq r' (List.mem_cons_of_mem _ hr') hc')

lemma records_pid_map (g : CubeGrid) :
    ((g.placed.map recOf).map fun r => r.pid) = g.placed.map Prod.fst := by
  rw [List.map_map]
  rfl

lemma roundtrip_grid {g : CubeGrid} (h : GInv g) :
    ((g.placed.map recOf).foldl (fun acc r =>
        writeCells g.size acc (cellsOf ⟨r.cubes, r.name⟩ r.pos) r.pid)
      (List.replicate (g.size * g.size * g.size) 0)) = g.grid := by
  have hlenrep : (List.replicate (g.size * g.size * g.size) (0 : Nat)).length
      = g.size * g.size * g.size := by simp
  have hlenfold : ((g.placed.map recOf).foldl (fun acc r =>
      writeCells g.size acc (cellsOf ⟨r.cubes, r.name⟩ r.pos) r.pid)
      (List.replicate (g.size * g.size * g.size) 0)).length = g.size * g.size * g.size := by
    rw [length_foldl_write]
    exact hlenrep
  apply List.ext_getElem?
  intro i
  by_cases hi : i < g.size * g.size * g.size
  · obtain ⟨hcb, hfi⟩ := coordOfIdx_spec g.size i hi
    have hgg : ∀ l : List Nat, l.length = g.size * g.size * g.size →
        l[i]? = some (gridGet g.size l (coordOfIdx g.size i)) := by
      intro l hl
      have hil : i < l.length := by omega
      rw [gridGet, if_pos hcb, hfi, List.getD_eq_getElem?_getD, List.getElem?_eq_getElem hil]
      rfl
    rw [hgg _ hlenfold, hgg _ h.glen]
    congr 1
    by_cases hz : gridGet g.size g.grid (coordOfIdx g.size i) = 0
    · rw [hz, gridGet_foldl_write_untouched _ _ _ _ hlenrep ?_, gridGet_replicate]
      intro r hrm hcontra
      obtain ⟨e, he, hre⟩ := List.mem_map.1 hrm
      have hcc : coordOfIdx g.size i ∈ cellsOf e.2.brick e.2.pos := by
        rw [← hre] at hcontra
        exact hcontra.1
      have h1 := h.own e he _ hcc
      have h2 := h.ids_pos e he
      omega
    · obtain ⟨e, he, hk, hcc⟩ := h.covered _ hcb hz
      have hrm : recOf e ∈ g.placed.map recOf := List.mem_map_of_mem recOf he
      have hnd : ((g.placed.map recOf).map fun r => r.pid).Nodup := by
        rw [records_pid_map]
        exact h.keys_nodup
      rw [gridGet_foldl_write_hit _ _ _ _ hlenrep hnd (recOf e) hrm hcc hcb ?_]
      · exact hk
      · intro r' hr' hc'
        obtain ⟨e', he', hre'⟩ := List.mem_map.1 hr'
        have hcc' : coordOfIdx g.size i ∈ cellsOf e'.2.brick e'.2.pos := by
          rw [← hre'] at hc'
          exact hc'
        have h1 := h.own e' he' _ hcc'
        have h2 := h.own e he _ hcc
        rw [← hre']
        congr 1
        exact entry_eq_of_key_eq h.keys_nodup he' he (h1.symm.trans h2)
  · have h1 : ((g.placed.map recOf).foldl (fun acc r =>
        writeCells g.size acc (cellsOf ⟨r.cubes, r.name⟩ r.pos) r.pid)
        (List.replicate (g.size * g.size * g.size) 0)).length ≤ i := by omega
    have h2 : g.grid.length ≤ i := by
      rw [h.glen]
      omega
    rw [List.getElem?_eq_none h1, List.getElem?_eq_none h2]

lemma roundtrip_placed {g : CubeGrid} (h : GInv g) :
    ((g.placed.map recOf).foldl (fun a r =>
        dictSet a r.pid ⟨r.pid, ⟨r.cubes, r.name⟩, r.pos⟩) []) = g.placed := by
  have hnd : ((g.placed.map recOf).map fun r => r.pid).Nodup := by
    rw [records_pid_map]
    exact h.keys_nodup
  rw [foldl_dictSet_fresh _ _ hnd (by simp), List.nil_append, List.map_map]
  have hid : ∀ e ∈ g.placed,
      ((fun r => ((r.pid, ⟨r.pid, ⟨r.cubes, r.name⟩, r.pos⟩) : Nat × Placement)) ∘ recOf) e
        = id e := by
    intro e he
    have hp := h.pid_eq e he
    obtain ⟨k, p⟩ := e
    obtain ⟨ppid, pbrick, ppos⟩ := p
    simp only at hp
    show ((k, ⟨k, ⟨pbrick.cubes, pbrick.name⟩, ppos⟩) : Nat × Placement) = (k, ⟨ppid, pbrick, ppos⟩)
    rw [hp]
  rw [List.map_congr_left hid, List.map_id]

/-- C6: from every reachable state, serializing with `to_dict` and loading
the snapshot back reproduces the state exactly — identical occupancy array,
identical registry (same ids, bricks, positions) and identical `next_id` —
and when a snapshot carries no `next_id`, a successful load falls back to
the maximum loaded id plus 1. -/
theorem save_load_roundtrip (g : CubeGrid) (hr : Reachable g) :
    g.load_from_data g.to_dict = (g, none)
    ∧ (∀ (g' : CubeGrid) (d : SaveData), d.next_id = none →
        (∀ r ∈ d.placed, r.cubes.length = 4) →
        (g'.load_from_data d).1.next_id = d.placed.foldl (fun m r => max m r.pid) 0 + 1) := by
  have h := inv_of_reachable hr
  constructor
  · have h4 : ∀ r ∈ g.placed.map recOf, r.cubes.length = 4 := by
      intro r hrm
      obtain ⟨e, he, hre⟩ := List.mem_map.1 hrm
      rw [← hre]
      exact h.cubes4 e he
    rw [show g.to_dict = ⟨some g.size, some g.next_id, g.placed.map recOf⟩ from rfl]
    simp only [CubeGrid.load_from_data, Option.getD_some, loadRecords_ok _ _ h4]
    rw [roundtrip_grid h, roundtrip_placed h]
  · intro g' d hnone h4'
    simp only [CubeGrid.load_from_data, loadRecords_ok _ _ h4', hnone, Option.getD_none]

/-- C6 witness: a size-2 grid with one placed `'O'`. -/
theorem save_load_roundtrip_witness :
    oTemplate.cubes.length = 4
    ∧ ((CubeGrid.init 2).place oTemplate (0, 0, 0)).1.load_from_data
        ((CubeGrid.init 2).place oTemplate (0, 0, 0)).1.to_dict
      = (((CubeGrid.init 2).place oTemplate (0, 0, 0)).1, none) :=
  ⟨by decide, (save_load_roundtrip _
    (Reachable.place oTemplate (0, 0, 0) (Reachable.init 2) (by decide))).1⟩

/-! ## C3: the adjacency-aware "between" feasibility query -/

/-- The six axis-aligned unit face-neighbor offsets (as in the GUI's
adjacency loops). -/
def neighborOffsets : List Coord :=
  [(1, 0, 0), (-1, 0, 0), (0, 1, 0), (0, -1, 0), (0, 0, 1), (0, 0, -1)]

/-- Modelled from the spec: the distinct placement ids owning the
in-bounds occupied face-neighbors of a cell list (§4.4's adjacency and
minimum-distinct-neighbor tests).  `CubeGrid.can_place_somewhere` is
invoked by the GUI but not defined under src, so this helper and the
enumeration below are modelled from the spec's PlacementSearch section. -/
def adjacentIds (size : Nat) (grid : List Nat) (cells : List Coord) : List Nat :=
  (((cells.flatMap fun c => neighborOffsets.map fun o =>
      ((c.1 + o.1, c.2.1 + o.2.1, c.2.2 + o.2.2) : Coord)).filter fun n =>
    inBounds size n && decide (gridGet size grid n ≠ 0)).map fun n =>
      gridGet size grid n).dedup

/-- Deduplicate a list by a key, keeping the first representative of each
key (the spec's "deduplicate results by the absolute set of occupied
cells"). -/
def dedupByKey {α κ : Type} [DecidableEq κ] (key : α → κ) : List α → List α
  | [] => []
  | a :: as => a :: dedupByKey key (as.filter fun x => decide (key x ≠ key a))
  termination_by l => l.length
  decreasing_by
    simp only [List.length_cons]
    exact Nat.lt_succ_of_le (List.length_filter_le _ _)

/-- Modelled from the spec: §4.4 PlacementSearch — enumerate all
`(rx,ry,rz) ∈ [0,4)³`, normalize the rotated brick, test every grid
origin with `can_place`; keep only placements passing the only-adjacent
filter and, when a minimum-distinct-neighbor threshold ≥ 2 is requested,
the distinct-adjacent-ids threshold; deduplicate results by the sorted
absolute occupied-cell set. -/
def findPlacements (g : CubeGrid) (b0 : Brick) (onlyAdjacent : Bool) (minDistinct : Nat) :
    List (Nat × Nat × Nat × Coord) :=
  dedupByKey (fun ent =>
      sortCoords (cellsOf ((b0.rotated ent.1 ent.2.1 ent.2.2.1).normalized) ent.2.2.2))
    ((List.range 4).flatMap fun rx => (List.range 4).flatMap fun ry =>
      (List.range 4).flatMap fun rz =>
        ((allCoords g.size).filter fun p =>
          g.can_place ((b0.rotated rx ry rz).normalized) p
            && (!onlyAdjacent || decide (1 ≤ (adjacentIds g.size g.grid
                  (cellsOf ((b0.rotated rx ry rz).normalized) p)).length))
            && (decide (minDistinct < 2) || decide (minDistinct ≤ (adjacentIds g.size g.grid
                  (cellsOf ((b0.rotated rx ry rz).normalized) p)).length))).map
          fun p => (rx, ry, rz, p))

/-- Modelled from the spec: `can_place_somewhere(brick, only_adjacent,
min_distinct_adjacent)` — whether the §4.4 enumeration reports any
placement. -/
def CubeGrid.can_place_somewhere (g : CubeGrid) (b0 : Brick) (onlyAdjacent : Bool)
    (minDistinct : Nat) : Bool :=
  ! (findPlacements g b0 onlyAdjacent minDistinct).isEmpty

lemma dedupByKey_subset_aux {α κ : Type} [DecidableEq κ] (key : α → κ) :
    ∀ (n : Nat) (l : List α), l.length ≤ n → ∀ a ∈ dedupByKey key l, a ∈ l := by
  intro n
  induction n with
  | zero =>
    intro l hl a ha
    have hnil : l = [] := List.length_eq_zero.1 (Nat.le_zero.1 hl)
    rw [hnil] at ha ⊢
    simp [dedupByKey] at ha
  | succ n ih =>
    intro l hl a ha
    cases l with
    | nil => simp [dedupByKey] at ha
    | cons b bs =>
      rw [dedupByKey] at ha
      rcases List.mem_cons.1 ha with h | h
      · rw [h]
        exact List.mem_cons_self b bs
      · have hlen : (bs.filter fun x => decide (key x ≠ key b)).length ≤ n :=
          le_trans (List.length_filter_le _ _) (by simpa using hl)
        exact List.mem_cons_of_mem _ (List.mem_of_mem_filter (ih _ hlen a h))

lemma dedupByKey_subset {α κ : Type} [DecidableEq κ] (key : α → κ) (l : List α) :
    ∀ a ∈ dedupByKey key l, a ∈ l :=
  dedupByKey_subset_aux key l.length l le_rfl

lemma dedupByKey_eq_nil_iff {α κ : Type} [DecidableEq κ] (key : α → κ) (l : List α) :
    dedupByKey key l = [] ↔ l = [] := by
  cases l with
  | nil => simp [dedupByKey]
  | cons a as => simp [dedupByKey]

/-- C3: the spec-modelled "between" query at the GUI's parameters
(`only_adjacent = true`, `min_distinct_adjacent = 2`): the enumeration
reports only placements whose in-bounds occupied face-neighbors span at
least 2 distinct placement ids, and the query answers `true` iff a
placement of some normalized rotation of `'T'` at some origin passes a
live `can_place` with at least 2 distinct adjacent placement ids. -/
theorem can_place_somewhere_between (g : CubeGrid) :
    (∀ ent ∈ findPlacements g tTemplate true 2,
      2 ≤ (adjacentIds g.size g.grid
        (cellsOf ((tTemplate.rotated ent.1 ent.2.1 ent.2.2.1).normalized) ent.2.2.2)).length)
    ∧ (g.can_place_somewhere tTemplate true 2 = true ↔
        ∃ rx ry rz : Nat, rx < 4 ∧ ry < 4 ∧ rz < 4 ∧
          ∃ p ∈ allCoords g.size,
            g.can_place ((tTemplate.rotated rx ry rz).normalized) p = true ∧
            2 ≤ (adjacentIds g.size g.grid
              (cellsOf ((tTemplate.rotated rx ry rz).normalized) p)).length) := by
  constructor
  · intro ent hent
    have hmem := dedupByKey_subset _ _ ent hent
    simp only [List.mem_flatMap, List.mem_map, List.mem_filter, List.mem_range] at hmem
    obtain ⟨rx, hrx, ry, hry, rz, hrz, p, ⟨hp, hcond⟩, hentp⟩ := hmem
    rw [← hentp]
    simp only [Bool.and_eq_true, Bool.or_eq_true, decide_eq_true_eq] at hcond
    rcases hcond.2 with h2 | h2
    · omega
    · exact h2
  · rw [CubeGrid.can_place_somewhere, Bool.not_eq_eq_eq_not, Bool.not_true,
      List.isEmpty_eq_false_iff_exists_mem]
    constructor
    · rintro ⟨ent, hent⟩
      have hmem := dedupByKey_subset _ _ ent hent
      simp only [List.mem_flatMap, List.mem_map, List.mem_filter, List.mem_range] at hmem
      obtain ⟨rx, hrx, ry, hry, rz, hrz, p, ⟨hp, hcond⟩, hentp⟩ := hmem
      simp only [Bool.and_eq_true, Bool.or_eq_true, decide_eq_true_eq] at hcond
      refine ⟨rx, ry, rz, hrx, hry, hrz, p, hp, hcond.1.1, ?_⟩
      rcases hcond.2 with h2 | h2
      · omega
      · exact h2
    · rintro ⟨rx, ry, rz, hrx, hry, hrz, p, hp, hcp, hlen⟩
      have hbase : (rx, ry, rz, p) ∈
          (List.range 4).flatMap (fun rx => (List.range 4).flatMap fun ry =>
            (List.range 4).flatMap fun rz =>
              ((allCoords g.size).filter fun p =>
                g.can_place ((tTemplate.rotated rx ry rz).normalized) p
                  && (!true || decide (1 ≤ (adjacentIds g.size g.grid
                        (cellsOf ((tTemplate.rotated rx ry rz).normalized) p)).length))
                  && (decide ((2 : Nat) < 2) || decide (2 ≤ (adjacentIds g.size g.grid
                        (cellsOf ((tTemplate.rotated rx ry rz).normalized) p)).length))).map
                fun p => (rx, ry, rz, p)) := by
        simp only [List.mem_flatMap, List.mem_map, List.mem_filter, List.mem_range]
        refine ⟨rx, hrx, ry, hry, rz, hrz, p, ⟨hp, ?_⟩, rfl⟩
        simp only [Bool.and_eq_true, Bool.or_eq_true, decide_eq_true_eq]
        exact ⟨⟨hcp, Or.inr (by omega)⟩, Or.inr hlen⟩
      have hne : findPlacements g tTemplate true 2 ≠ [] := by
        intro hcontra
        exact List.ne_nil_of_mem hbase ((dedupByKey_eq_nil_iff _ _).1 hcontra)
      obtain ⟨x, hx⟩ := List.exists_mem_of_ne_nil _ hne
      exact ⟨x, hx⟩
